import Mathlib

/-!
Shallow embedding of the identity-matching and attendance-deduplication
engine of the ai-attendance backend (`src/backend/app.py` and
`src/backend/ai-service/face_recognition.py`).

Floating-point values are modelled as rationals wherever the code only
compares, adds and multiplies them (similarity scores, timestamps), and as
real numbers where a square root occurs (the L2 normalization performed at
registration time).  Python dictionaries (`students_db`,
`known_faces`, `face_names`, `last_attendance_times`) are modelled as
association lists in insertion order, with lookup / assignment / deletion
functions mirroring `d.get`, `d[k] = v` and `del d[k]` / `d.pop`.
-/

/-- Association-list lookup; models Python `d.get(k)` (first matching key). -/
def alookup {α : Type} (k : ℕ) : List (ℕ × α) → Option α
  | [] => none
  | p :: rest => if p.1 = k then some p.2 else alookup k rest

/-- Association-list assignment; models Python `d[k] = v`: replaces the value
at an existing key in place, otherwise appends the new binding at the end
(Python dicts preserve insertion order). -/
def alistInsert {α : Type} (k : ℕ) (v : α) : List (ℕ × α) → List (ℕ × α)
  | [] => [(k, v)]
  | p :: rest => if p.1 = k then (k, v) :: rest else p :: alistInsert k v rest

/-- Association-list deletion; models Python `del d[k]` / `d.pop(k, None)`. -/
def aerase {α : Type} (k : ℕ) : List (ℕ × α) → List (ℕ × α)
  | [] => []
  | p :: rest => if p.1 = k then aerase k rest else p :: aerase k rest

/-- Dot product of two embedding vectors, `np.dot` on equal-length
1-D arrays (`face_recognition.py`, line 202 and `app.py`, line 246). -/
def dotQ (a b : List ℚ) : ℚ := (List.zipWith (fun x y => x * y) a b).sum

/-- A student record as stored in `students_db` (`app.py`, `create_student`).
The `embeddings` field of the Python dict is always `None` at creation and
is never read by the core logic, so it is omitted. -/
structure StudentRec where
  id : ℕ
  name : String
  rollNumber : String
  deriving DecidableEq

/-- An attendance record (`app.py`, Pydantic model `AttendanceRecord`). -/
structure AttRecord where
  student_id : ℕ
  timestamp : ℚ
  confidence : ℚ
  loc : Option String
  deriving DecidableEq

/-- The module-level mutable state of `app.py` together with the face
database of the `FaceRecognitionService`: `students_db`, the service's
`known_faces` and `face_names`, `last_attendance_times` and
`attendance_db`. Timestamps are seconds, as compared by
`(current_time - last_time).total_seconds()`. -/
structure SysState where
  students_db : List (ℕ × StudentRec)
  known_faces : List (ℕ × List ℚ)
  face_names : List (ℕ × String)
  last_attendance_times : List (ℕ × ℚ)
  attendance_db : List AttRecord
  deriving DecidableEq

/-- Outcome of the attendance dedup gate: either a record was committed
(`marked`) or the write was suppressed by the cooldown; in both cases the
caller still receives the matched identity and confidence (`app.py`,
lines 160-194: both branches return `recognized=True` with the id). -/
inductive Outcome where
  | marked : ℕ → ℚ → Outcome
  | suppressed : ℕ → ℚ → Outcome
  deriving DecidableEq

/-- The attendance dedup gate of `app.py` (lines 160-194, duplicated at
lines 255-273): read `last_attendance_times[student_id]`; if absent, or if
`now - last >= 300` seconds, append an `AttendanceRecord` with timestamp
`now` and location `"Webcam"` and set the last-seen time to `now`;
otherwise change nothing. -/
def tryMark (st : SysState) (sid : ℕ) (now conf : ℚ) : SysState × Outcome :=
  match alookup sid st.last_attendance_times with
  | some last =>
      if now - last < 300 then (st, Outcome.suppressed sid conf)
      else
        ({ st with
             attendance_db := st.attendance_db ++ [⟨sid, now, conf, some "Webcam"⟩],
             last_attendance_times := alistInsert sid now st.last_attendance_times },
         Outcome.marked sid conf)
  | none =>
      ({ st with
           attendance_db := st.attendance_db ++ [⟨sid, now, conf, some "Webcam"⟩],
           last_attendance_times := alistInsert sid now st.last_attendance_times },
       Outcome.marked sid conf)

/-- The best-match scan of `FaceRecognitionService.recognize_face`
(`face_recognition.py`, lines 198-205) and of `recognize_faces_multi`
(`app.py`, lines 242-249): fold over the store, replacing the accumulator
`(best_match_id, best_similarity)`, initially `(None, 0.0)`, whenever a
strictly greater dot product is found. -/
def scanFaces (emb : List ℚ) : List (ℕ × List ℚ) → Option ℕ × ℚ → Option ℕ × ℚ
  | [], acc => acc
  | e :: rest, acc =>
      scanFaces emb rest
        (if acc.2 < dotQ emb e.2 then (some e.1, dotQ emb e.2) else acc)

/-- The matching core of `FaceRecognitionService.recognize_face`
(`face_recognition.py`, lines 197-210), taking the query embedding after
the upstream detection / extraction / normalization steps (the scan itself
places no constraint on the query vector): scan `known_faces` for the best
dot product, then compare against the threshold; on success also look the
display name up in `face_names` (`self.face_names.get(best_match_id)`). -/
def recognize_face (known : List (ℕ × List ℚ)) (names : List (ℕ × String))
    (emb : List ℚ) (threshold : ℚ) : Option ℕ × Option String × ℚ :=
  let best := scanFaces emb known (none, 0)
  if threshold ≤ best.2 then
    (best.1, (match best.1 with | some i => alookup i names | none => none), best.2)
  else (none, none, best.2)

/-- A per-face result of the multi-face endpoint (`app.py`, Pydantic model
`RecognitionResult`; the `display_bbox` field is only ever set by the
single-face endpoint and is omitted). -/
structure RecResult where
  student_id : Option ℕ
  student_name : Option String
  confidence : ℚ
  recognized : Bool
  bbox : Option (List ℤ)
  deriving DecidableEq

/-- The per-face result computed by one iteration of the loop of
`recognize_faces_multi` (`app.py`, lines 225-288): a face whose embedding
extraction returned `None` yields a zero-confidence unrecognized entry with
no bbox; otherwise the best-match scan runs and the 0.6 threshold decides
between a recognized entry (id, name, similarity, bbox) and an
unrecognized one carrying the best similarity and the bbox.  The result
does not depend on `last_attendance_times`, which only gates the
attendance write. -/
def faceResult (known : List (ℕ × List ℚ)) (names : List (ℕ × String))
    (face : List ℤ × Option (List ℚ)) : RecResult :=
  match face.2 with
  | none => ⟨none, none, 0, false, none⟩
  | some emb =>
      let best := scanFaces emb known (none, 0)
      if 0.6 ≤ best.2 then
        ⟨best.1, (match best.1 with | some i => alookup i names | none => none),
         best.2, true, some face.1⟩
      else ⟨none, none, best.2, false, some face.1⟩

/-- The batch recognition orchestrator `recognize_faces_multi` (`app.py`,
lines 206-297).  Each input face is the detected bounding box together with
the result of embedding extraction (`extract_embedding`, `None` on
failure) after the normalization step; detection, image decoding and
normalization are upstream collaborators.  Returns the final state, the
per-face results in input order, and `recognized_count`.  The gate logic
at lines 255-273 is the same check-then-act sequence as `tryMark`. -/
def recognize_faces_multi (st : SysState)
    (faces : List (List ℤ × Option (List ℚ))) (now : ℚ) :
    SysState × List RecResult × ℕ :=
  match faces with
  | [] => (st, [], 0)
  | (bbox, oemb) :: rest =>
      match oemb with
      | none =>
          let r := recognize_faces_multi st rest now
          (r.1, ⟨none, none, 0, false, none⟩ :: r.2.1, r.2.2)
      | some emb =>
          let best := scanFaces emb st.known_faces (none, 0)
          if 0.6 ≤ best.2 then
            let nm := match best.1 with | some i => alookup i st.face_names | none => none
            let st1 := match best.1 with
                       | some i => (tryMark st i now best.2).1
                       | none => st
            let r := recognize_faces_multi st1 rest now
            (r.1, ⟨best.1, nm, best.2, true, some bbox⟩ :: r.2.1, r.2.2 + 1)
          else
            let r := recognize_faces_multi st rest now
            (r.1, ⟨none, none, best.2, false, some bbox⟩ :: r.2.1, r.2.2)

/-- The endpoint `create_student` (`app.py`, lines 81-91): the new id is
`len(students_db) + 1` and the record is stored under that id. -/
def create_student (st : SysState) (name rollNumber : String) : SysState × ℕ :=
  let sid := st.students_db.length + 1
  ({ st with students_db := alistInsert sid ⟨sid, name, rollNumber⟩ st.students_db }, sid)

/-- The endpoint `delete_student` (`app.py`, lines 307-326): a 404 error
(`none`) if the id is not in `students_db`; otherwise the record is
removed from `students_db` and the face data is popped from `known_faces`
and `face_names`.  `last_attendance_times` and `attendance_db` are not
touched. -/
def delete_student (st : SysState) (sid : ℕ) : Option SysState :=
  if (alookup sid st.students_db).isSome then
    some { st with
             students_db := aerase sid st.students_db,
             known_faces := aerase sid st.known_faces,
             face_names := aerase sid st.face_names }
  else none

/-- The outcome of processing one registration photo upstream of
`register_face`: how many faces the detector found in the image, and the
result of `extract_embedding` on the single face when exactly one was
found (`None` when extraction failed; the field is not consulted
otherwise). -/
structure ImageRes where
  numFaces : ℕ
  embedding : Option (List ℝ)

/-- The candidate embedding contributed by one image in the loop of
`register_face` (`face_recognition.py`, lines 140-154): kept only when the
image has exactly one detected face and extraction succeeded. -/
def candEmb (img : ImageRes) : Option (List ℝ) :=
  if img.numFaces = 1 then img.embedding else none

/-- Sum of squared entries of a vector; `np.linalg.norm(v)` is its square
root. -/
def sumSq (v : List ℝ) : ℝ := (v.map (fun x => x * x)).sum

/-- Element-wise sum of a list of equal-length vectors. -/
def sumVecs : List (List ℝ) → List ℝ
  | [] => []
  | [v] => v
  | v :: rest => List.zipWith (fun a b => a + b) v (sumVecs rest)

/-- Element-wise arithmetic mean, `np.mean(embeddings, axis=0)`
(`face_recognition.py`, line 158). -/
noncomputable def meanVec (es : List (List ℝ)) : List ℝ :=
  (sumVecs es).map (fun x => x / (es.length : ℝ))

/-- L2 normalization `v / np.linalg.norm(v)` (`face_recognition.py`,
line 159).  The division is performed unconditionally, exactly as in the
source: there is no zero-norm guard. -/
noncomputable def normalizeVec (v : List ℝ) : List ℝ :=
  v.map (fun x => x / Real.sqrt (sumSq v))

/-- The registration aggregation of `register_face` (`face_recognition.py`,
lines 156-159): normalized element-wise mean of the candidates. -/
noncomputable def aggregateEmb (es : List (List ℝ)) : List ℝ :=
  normalizeVec (meanVec es)

/-- The face database owned by `FaceRecognitionService`, as written by
registration.  The embeddings are real vectors here because registration
computes a square root; the matcher claims are stated over the rational
model above. -/
structure FaceDB where
  known_faces : List (ℕ × List ℝ)
  face_names : List (ℕ × String)

/-- `FaceRecognitionService.register_face` (`face_recognition.py`,
lines 126-169): collect the candidate embeddings of the images with
exactly one detected face and successful extraction; if at least 3
remain, store the normalized mean under the student id together with the
display name and report success, otherwise report failure and change
nothing. -/
noncomputable def register_face (db : FaceDB) (sid : ℕ) (name : String)
    (images : List ImageRes) : FaceDB × Bool :=
  let embeddings := images.filterMap candEmb
  if 3 ≤ embeddings.length then
    ({ known_faces := alistInsert sid (aggregateEmb embeddings) db.known_faces,
       face_names := alistInsert sid name db.face_names }, true)
  else (db, false)

/-- The empty initial state of `app.py`. -/
def emptyState : SysState := ⟨[], [], [], [], []⟩

/-- A sample state with one enrolled student whose attendance was last
committed at time 500. -/
def stAlice : SysState :=
  ⟨[(1, ⟨1, "Alice", "r1"⟩)], [(1, [1])], [(1, "Alice")], [(1, 500)], []⟩

/-- A sample state in which students 1 and 2 were created and student 1
was then deleted: the id `len(students_db) + 1 = 2` is already owned. -/
def stAfterDelete : SysState :=
  ⟨[(2, ⟨2, "Bob", "r2"⟩)], [], [], [], []⟩

/-! Helper lemmas about the association-list operations. -/

theorem alookup_alistInsert_self {α : Type} (k : ℕ) (v : α) :
    ∀ l : List (ℕ × α), alookup k (alistInsert k v l) = some v := by
  intro l
  induction l with
  | nil => simp [alistInsert, alookup]
  | cons p rest ih =>
      by_cases h : p.1 = k
      · simp [alistInsert, alookup, h]
      · simp [alistInsert, alookup, h, ih]

theorem alookup_aerase_self {α : Type} (k : ℕ) :
    ∀ l : List (ℕ × α), alookup k (aerase k l) = none := by
  intro l
  induction l with
  | nil => simp [aerase, alookup]
  | cons p rest ih =>
      by_cases h : p.1 = k
      · simp [aerase, h, ih]
      · simp [aerase, alookup, h, ih]

theorem ne_of_mem_aerase {α : Type} {k : ℕ} {e : ℕ × α} :
    ∀ {l : List (ℕ × α)}, e ∈ aerase k l → e.1 ≠ k := by
  intro l
  induction l with
  | nil => intro h; simp [aerase] at h
  | cons p rest ih =>
      intro h
      by_cases hp : p.1 = k
      · rw [aerase, if_pos hp] at h; exact ih h
      · rw [aerase, if_neg hp] at h
        rcases List.mem_cons.1 h with h1 | h2
        · rw [h1]; exact hp
        · exact ih h2

theorem length_alistInsert_of_lookup {α : Type} {k : ℕ} {v : α} (w : α) :
    ∀ {l : List (ℕ × α)}, alookup k l = some v →
      (alistInsert k w l).length = l.length := by
  intro l
  induction l with
  | nil => intro h; simp [alookup] at h
  | cons p rest ih =>
      intro h
      by_cases hp : p.1 = k
      · simp [alistInsert, hp]
      · rw [alookup, if_neg hp] at h
        simp [alistInsert, hp, ih h]

/-! Helper lemmas about folded maxima of rational lists. -/

theorem le_foldl_max (a : ℚ) : ∀ l : List ℚ, a ≤ l.foldl max a := by
  intro l
  induction l generalizing a with
  | nil => exact le_refl a
  | cons x rest ih =>
      exact le_trans (le_max_left a x) (ih (max a x))

theorem mem_le_foldl_max {x : ℚ} :
    ∀ {l : List ℚ}, x ∈ l → ∀ a : ℚ, x ≤ l.foldl max a := by
  intro l
  induction l with
  | nil => intro h; simp at h
  | cons y rest ih =>
      intro h a
      rcases List.mem_cons.1 h with h1 | h2
      · rw [h1]
        exact le_trans (le_max_right a y) (le_foldl_max (max a y) rest)
      · exact ih h2 (max a y)

theorem foldl_max_cases {t : ℚ} :
    ∀ {l : List ℚ} {a : ℚ}, t ≤ l.foldl max a → t ≤ a ∨ ∃ x ∈ l, t ≤ x := by
  intro l
  induction l with
  | nil => intro a h; exact Or.inl h
  | cons y rest ih =>
      intro a h
      rcases ih h with h1 | ⟨x, hx, hxt⟩
      · rcases le_max_iff.1 h1 with h2 | h2
        · exact Or.inl h2
        · exact Or.inr ⟨y, List.mem_cons_self y rest, h2⟩
      · exact Or.inr ⟨x, List.mem_cons_of_mem y hx, hxt⟩

theorem foldl_max_eq_self :
    ∀ {l : List ℚ} {a : ℚ}, (∀ x ∈ l, x ≤ a) → l.foldl max a = a := by
  intro l
  induction l with
  | nil => intro a _; rfl
  | cons y rest ih =>
      intro a h
      have hy : max a y = a := max_eq_left (h y (List.mem_cons_self y rest))
      rw [List.foldl_cons, hy]
      exact ih (fun x hx => h x (List.mem_cons_of_mem y hx))

/-! Helper lemmas about the best-match scan. -/

theorem scanFaces_snd (emb : List ℚ) :
    ∀ (es : List (ℕ × List ℚ)) (acc : Option ℕ × ℚ),
      (scanFaces emb es acc).2 = (es.map (fun e => dotQ emb e.2)).foldl max acc.2 := by
  intro es
  induction es with
  | nil => intro acc; rfl
  | cons e rest ih =>
      intro acc
      rw [scanFaces, List.map_cons, List.foldl_cons, ih]
      congr 1
      by_cases h : acc.2 < dotQ emb e.2
      · rw [if_pos h]; exact (max_eq_right h.le).symm
      · rw [if_neg h]; exact (max_eq_left (not_lt.1 h)).symm

theorem scanFaces_fst_mem (emb : List ℚ) :
    ∀ (es : List (ℕ × List ℚ)) (acc : Option ℕ × ℚ),
      (scanFaces emb es acc).1 = acc.1 ∨
        ∃ e ∈ es, (scanFaces emb es acc).1 = some e.1 := by
  intro es
  induction es with
  | nil => intro acc; exact Or.inl rfl
  | cons e rest ih =>
      intro acc
      rw [scanFaces]
      by_cases h : acc.2 < dotQ emb e.2
      · rw [if_pos h]
        rcases ih (some e.1, dotQ emb e.2) with h1 | ⟨e', he', heq⟩
        · exact Or.inr ⟨e, List.mem_cons_self e rest, h1⟩
        · exact Or.inr ⟨e', List.mem_cons_of_mem e he', heq⟩
      · rw [if_neg h]
        rcases ih acc with h1 | ⟨e', he', heq⟩
        · exact Or.inl h1
        · exact Or.inr ⟨e', List.mem_cons_of_mem e he', heq⟩

theorem scanFaces_fst_none (emb : List ℚ) :
    ∀ (es : List (ℕ × List ℚ)) (acc : Option ℕ × ℚ),
      (scanFaces emb es acc).1 = none → scanFaces emb es acc = acc := by
  intro es
  induction es with
  | nil => intro acc _; rfl
  | cons e rest ih =>
      intro acc h
      rw [scanFaces] at h ⊢
      by_cases hc : acc.2 < dotQ emb e.2
      · rw [if_pos hc] at h ⊢
        have heq := ih (some e.1, dotQ emb e.2) h
        rw [heq] at h
        simp at h
      · rw [if_neg hc] at h ⊢
        exact ih acc h

theorem scanFaces_eq_of_le (emb : List ℚ) :
    ∀ (es : List (ℕ × List ℚ)) (acc : Option ℕ × ℚ),
      (∀ e ∈ es, dotQ emb e.2 ≤ acc.2) → scanFaces emb es acc = acc := by
  intro es
  induction es with
  | nil => intro acc _; rfl
  | cons e rest ih =>
      intro acc h
      rw [scanFaces,
          if_neg (not_lt.2 (h e (List.mem_cons_self e rest)))]
      exact ih acc (fun e' he' => h e' (List.mem_cons_of_mem e he'))

theorem recognize_face_fst_mem {known : List (ℕ × List ℚ)}
    {names : List (ℕ × String)} {emb : List ℚ} {t : ℚ} {i : ℕ}
    (h : (recognize_face known names emb t).1 = some i) :
    ∃ e ∈ known, e.1 = i := by
  rw [recognize_face] at h
  by_cases hb : t ≤ (scanFaces emb known (none, 0)).2
  · rw [if_pos hb] at h
    rcases scanFaces_fst_mem emb known (none, 0) with h1 | ⟨e, he, heq⟩
    · rw [h1] at h; exact absurd h (by simp)
    · refine ⟨e, he, ?_⟩
      rw [heq] at h
      exact Option.some_inj.1 h
  · rw [if_neg hb] at h
    exact absurd h (by simp)

/-! Helper lemmas about the dedup gate and the batch orchestrator. -/

theorem faceResult_at_none (known : List (ℕ × List ℚ)) (names : List (ℕ × String))
    (bbox : List ℤ) :
    faceResult known names (bbox, none) = ⟨none, none, 0, false, none⟩ := rfl

theorem faceResult_at_some (known : List (ℕ × List ℚ)) (names : List (ℕ × String))
    (bbox : List ℤ) (emb : List ℚ) :
    faceResult known names (bbox, some emb) =
      if 0.6 ≤ (scanFaces emb known (none, 0)).2 then
        (⟨(scanFaces emb known (none, 0)).1,
          (match (scanFaces emb known (none, 0)).1 with
           | some i => alookup i names | none => none),
          (scanFaces emb known (none, 0)).2, true, some bbox⟩ : RecResult)
      else ⟨none, none, (scanFaces emb known (none, 0)).2, false, some bbox⟩ := rfl

theorem tryMark_preserves_faces (st : SysState) (sid : ℕ) (now conf : ℚ) :
    (tryMark st sid now conf).1.known_faces = st.known_faces ∧
      (tryMark st sid now conf).1.face_names = st.face_names := by
  unfold tryMark
  split
  · split
    · exact ⟨rfl, rfl⟩
    · exact ⟨rfl, rfl⟩
  · exact ⟨rfl, rfl⟩

theorem recognize_faces_multi_results (faces : List (List ℤ × Option (List ℚ))) :
    ∀ (st : SysState) (now : ℚ),
      (recognize_faces_multi st faces now).2.1 =
        faces.map (faceResult st.known_faces st.face_names) := by
  induction faces with
  | nil => intro st now; rfl
  | cons f rest ih =>
      intro st now
      obtain ⟨bbox, oemb⟩ := f
      rcases oemb with _ | emb
      · rw [recognize_faces_multi, List.map_cons, faceResult_at_none]
        exact congrArg _ (ih st now)
      · rw [recognize_faces_multi, List.map_cons, faceResult_at_some]
        by_cases hb : (0.6 : ℚ) ≤ (scanFaces emb st.known_faces (none, 0)).2
        · rw [if_pos hb, if_pos hb]
          rcases hfst : (scanFaces emb st.known_faces (none, 0)).1 with _ | i
          · simp only [hfst, List.cons.injEq]
            exact ⟨trivial, ih st now⟩
          · simp only [hfst, List.cons.injEq]
            constructor
            · trivial
            · rw [ih (tryMark st i now (scanFaces emb st.known_faces (none, 0)).2).1 now,
                  (tryMark_preserves_faces st i now _).1,
                  (tryMark_preserves_faces st i now _).2]
        · rw [if_neg hb, if_neg hb]
          exact congrArg _ (ih st now)

theorem recognize_faces_multi_count (faces : List (List ℤ × Option (List ℚ))) :
    ∀ (st : SysState) (now : ℚ),
      (recognize_faces_multi st faces now).2.2 =
        List.countP (fun r => r.recognized) (recognize_faces_multi st faces now).2.1 := by
  induction faces with
  | nil => intro st now; rfl
  | cons f rest ih =>
      intro st now
      obtain ⟨bbox, oemb⟩ := f
      rcases oemb with _ | emb
      · rw [recognize_faces_multi]
        simp only [List.countP_cons]
        rw [← ih st now]
        simp
      · rw [recognize_faces_multi]
        by_cases hb : (0.6 : ℚ) ≤ (scanFaces emb st.known_faces (none, 0)).2
        · rw [if_pos hb]
          simp only [List.countP_cons]
          rcases hfst : (scanFaces emb st.known_faces (none, 0)).1 with _ | i
          · simp only [hfst]
            rw [← ih st now]
            simp
          · simp only [hfst]
            rw [← ih (tryMark st i now (scanFaces emb st.known_faces (none, 0)).2).1 now]
            simp
        · rw [if_neg hb]
          simp only [List.countP_cons]
          rw [← ih st now]
          simp

/-! Helper lemmas for the registration aggregation over real vectors. -/

theorem zipWith_add_map_mul (c : ℝ) :
    ∀ (a b : List ℝ),
      List.zipWith (fun x y => x + y) (a.map (fun x => c * x)) (b.map (fun x => c * x)) =
        (List.zipWith (fun x y => x + y) a b).map (fun x => c * x) := by
  intro a
  induction a with
  | nil => intro b; simp
  | cons x a' ih =>
      intro b
      cases b with
      | nil => simp
      | cons y b' => simp [ih b', mul_add]

theorem sumVecs_map_mul (c : ℝ) :
    ∀ es : List (List ℝ),
      sumVecs (es.map (List.map (fun x => c * x))) =
        (sumVecs es).map (fun x => c * x) := by
  intro es
  induction es with
  | nil => rfl
  | cons v rest ih =>
      cases rest with
      | nil => rfl
      | cons w t =>
          have h1 : sumVecs ((v :: w :: t).map (List.map (fun x => c * x))) =
              List.zipWith (fun a b => a + b) (v.map (fun x => c * x))
                (sumVecs ((w :: t).map (List.map (fun x => c * x)))) := rfl
          have h2 : sumVecs (v :: w :: t) =
              List.zipWith (fun a b => a + b) v (sumVecs (w :: t)) := rfl
          rw [h1, h2, ih, zipWith_add_map_mul]

theorem sumSq_map_mul (c : ℝ) :
    ∀ v : List ℝ, sumSq (v.map (fun x => c * x)) = c ^ 2 * sumSq v := by
  intro v
  induction v with
  | nil => simp [sumSq]
  | cons x v' ih =>
      simp only [List.map_cons, sumSq, List.sum_cons] at ih ⊢
      rw [ih]
      ring

theorem normalizeVec_map_mul {c : ℝ} (hc : 0 < c) (v : List ℝ) :
    normalizeVec (v.map (fun x => c * x)) = normalizeVec v := by
  rw [normalizeVec, normalizeVec, sumSq_map_mul,
      Real.sqrt_mul (sq_nonneg c), Real.sqrt_sq hc.le, List.map_map]
  have harg : ((fun x => x / (c * Real.sqrt (sumSq v))) ∘ fun x => c * x) =
      fun x => x / Real.sqrt (sumSq v) := by
    funext x
    simp only [Function.comp]
    exact mul_div_mul_left x (Real.sqrt (sumSq v)) hc.ne'
  rw [harg]

theorem meanVec_map_mul (c : ℝ) (es : List (List ℝ)) :
    meanVec (es.map (List.map (fun x => c * x))) =
      (meanVec es).map (fun x => c * x) := by
  rw [meanVec, meanVec, sumVecs_map_mul, List.length_map, List.map_map, List.map_map]
  have harg : ((fun x => x / (es.length : ℝ)) ∘ fun x => c * x) =
      ((fun x => c * x) ∘ fun x => x / (es.length : ℝ)) := by
    funext x
    simp only [Function.comp]
    exact mul_div_assoc c x (es.length : ℝ)
  rw [harg]

/-! Unfolding equations (definitional) used to reason about the operations. -/

theorem recognize_face_eq (known : List (ℕ × List ℚ)) (names : List (ℕ × String))
    (emb : List ℚ) (t : ℚ) :
    recognize_face known names emb t =
      if t ≤ (scanFaces emb known (none, 0)).2 then
        ((scanFaces emb known (none, 0)).1,
         (match (scanFaces emb known (none, 0)).1 with
          | some i => alookup i names | none => none),
         (scanFaces emb known (none, 0)).2)
      else (none, none, (scanFaces emb known (none, 0)).2) := rfl

theorem register_face_eq (db : FaceDB) (sid : ℕ) (name : String)
    (images : List ImageRes) :
    register_face db sid name images =
      if 3 ≤ (images.filterMap candEmb).length then
        ({ known_faces := alistInsert sid (aggregateEmb (images.filterMap candEmb)) db.known_faces,
           face_names := alistInsert sid name db.face_names }, true)
      else (db, false) := rfl

theorem tryMark_of_none {st : SysState} {sid : ℕ} {now conf : ℚ}
    (h : alookup sid st.last_attendance_times = none) :
    tryMark st sid now conf =
      ({ st with
           attendance_db := st.attendance_db ++ [⟨sid, now, conf, some "Webcam"⟩],
           last_attendance_times := alistInsert sid now st.last_attendance_times },
       Outcome.marked sid conf) := by
  unfold tryMark
  rw [h]

theorem tryMark_of_lt {st : SysState} {sid : ℕ} {now conf last : ℚ}
    (h : alookup sid st.last_attendance_times = some last)
    (hlt : now - last < 300) :
    tryMark st sid now conf = (st, Outcome.suppressed sid conf) := by
  unfold tryMark
  rw [h]
  exact if_pos hlt

theorem tryMark_of_ge {st : SysState} {sid : ℕ} {now conf last : ℚ}
    (h : alookup sid st.last_attendance_times = some last)
    (hge : 300 ≤ now - last) :
    tryMark st sid now conf =
      ({ st with
           attendance_db := st.attendance_db ++ [⟨sid, now, conf, some "Webcam"⟩],
           last_attendance_times := alistInsert sid now st.last_attendance_times },
       Outcome.marked sid conf) := by
  unfold tryMark
  rw [h]
  exact if_neg (not_lt.2 hge)

theorem delete_student_eq_some {st : SysState} {sid : ℕ} {st' : SysState}
    (h : delete_student st sid = some st') :
    st' = { st with students_db := aerase sid st.students_db,
                    known_faces := aerase sid st.known_faces,
                    face_names := aerase sid st.face_names } := by
  rw [delete_student] at h
  by_cases hs : (alookup sid st.students_db).isSome
  · rw [if_pos hs] at h
    exact (Option.some_inj.1 h).symm
  · rw [if_neg hs] at h
    exact absurd h (by simp)

theorem get_congr {α : Type} {l l' : List α} (h : l = l') (i : ℕ)
    (hi : i < l.length) (hi' : i < l'.length) :
    l.get ⟨i, hi⟩ = l'.get ⟨i, hi'⟩ := by
  subst h
  rfl

theorem get_map_eq {α β : Type} (f : α → β) :
    ∀ (l : List α) (i : ℕ) (h : i < l.length) (h' : i < (l.map f).length),
      (l.map f).get ⟨i, h'⟩ = f (l.get ⟨i, h⟩) := by
  intro l
  induction l with
  | nil => intro i h _; exact absurd h (Nat.not_lt_zero i)
  | cons a l' ih =>
      intro i h h'
      cases i with
      | zero => rfl
      | succ j => exact ih j (Nat.lt_of_succ_lt_succ h) (Nat.lt_of_succ_lt_succ h')

/-! The claims. -/

/-- Claim C1: the attendance dedup gate commits (appends a record
timestamped `now` and sets the last-seen time to `now`, returning
`marked`) if and only if the identity has no last-seen entry or
`now - last >= 300` seconds; otherwise it returns `suppressed`, writing no
record and leaving the state unchanged, while the outcome still carries
the matched identity and confidence.  In particular, after a mark at time
`T`, `tryMark` at `T + 299` is suppressed and `tryMark` at `T + 301` is
marked and updates the last-seen time to `T + 301`. -/
theorem tryMark_commit_iff_cooldown (st : SysState) (sid : ℕ) (now conf : ℚ) :
    ((tryMark st sid now conf).2 = Outcome.marked sid conf ↔
      alookup sid st.last_attendance_times = none ∨
        ∃ last, alookup sid st.last_attendance_times = some last ∧ 300 ≤ now - last) ∧
    ((tryMark st sid now conf).2 = Outcome.marked sid conf →
      (tryMark st sid now conf).1.attendance_db =
        st.attendance_db ++ [⟨sid, now, conf, some "Webcam"⟩] ∧
      alookup sid (tryMark st sid now conf).1.last_attendance_times = some now) ∧
    ((tryMark st sid now conf).2 = Outcome.suppressed sid conf →
      (tryMark st sid now conf).1 = st) ∧
    ((tryMark st sid now conf).2 = Outcome.marked sid conf ∨
      (tryMark st sid now conf).2 = Outcome.suppressed sid conf) ∧
    (∀ T, alookup sid st.last_attendance_times = some T →
      (tryMark st sid (T + 299) conf).2 = Outcome.suppressed sid conf ∧
      (tryMark st sid (T + 299) conf).1 = st ∧
      (tryMark st sid (T + 301) conf).2 = Outcome.marked sid conf ∧
      alookup sid ((tryMark st sid (T + 301) conf).1).last_attendance_times =
        some (T + 301)) := by
  refine ⟨⟨?_, ?_⟩, ?_, ?_, ?_, ?_⟩
  · intro hm
    rcases hl : alookup sid st.last_attendance_times with _ | last
    · exact Or.inl rfl
    · by_cases hc : now - last < 300
      · rw [tryMark_of_lt hl hc] at hm
        exact absurd hm (by simp)
      · exact Or.inr ⟨last, rfl, not_lt.1 hc⟩
  · intro hcond
    rcases hcond with hnone | ⟨last, hl, hge⟩
    · rw [tryMark_of_none hnone]
    · rw [tryMark_of_ge hl hge]
  · intro hm
    rcases hl : alookup sid st.last_attendance_times with _ | last
    · rw [tryMark_of_none hl]
      exact ⟨rfl, alookup_alistInsert_self _ _ _⟩
    · by_cases hc : now - last < 300
      · rw [tryMark_of_lt hl hc] at hm
        exact absurd hm (by simp)
      · rw [tryMark_of_ge hl (not_lt.1 hc)]
        exact ⟨rfl, alookup_alistInsert_self _ _ _⟩
  · intro hs
    rcases hl : alookup sid st.last_attendance_times with _ | last
    · rw [tryMark_of_none hl] at hs
      exact absurd hs (by simp)
    · by_cases hc : now - last < 300
      · rw [tryMark_of_lt hl hc]
      · rw [tryMark_of_ge hl (not_lt.1 hc)] at hs
        exact absurd hs (by simp)
  · rcases hl : alookup sid st.last_attendance_times with _ | last
    · rw [tryMark_of_none hl]
      exact Or.inl rfl
    · by_cases hc : now - last < 300
      · rw [tryMark_of_lt hl hc]
        exact Or.inr rfl
      · rw [tryMark_of_ge hl (not_lt.1 hc)]
        exact Or.inl rfl
  · intro T hT
    have h299 : (T + 299) - T < 300 := by linarith
    have h301 : (300 : ℚ) ≤ (T + 301) - T := by linarith
    refine ⟨?_, ?_, ?_, ?_⟩
    · rw [tryMark_of_lt hT h299]
    · rw [tryMark_of_lt hT h299]
    · rw [tryMark_of_ge hT h301]
    · rw [tryMark_of_ge hT h301]
      exact alookup_alistInsert_self _ _ _

/-- Witness for C1 on a concrete state: student 1 was last marked at time
500; the gate suppresses at 500 + 299 without touching the state and
commits at 500 + 301, updating the last-seen time. -/
theorem tryMark_commit_iff_cooldown_witness :
    alookup 1 stAlice.last_attendance_times = some 500 ∧
    (tryMark stAlice 1 (500 + 299) 0.9).2 = Outcome.suppressed 1 0.9 ∧
    (tryMark stAlice 1 (500 + 299) 0.9).1 = stAlice ∧
    (tryMark stAlice 1 (500 + 301) 0.9).2 = Outcome.marked 1 0.9 ∧
    alookup 1 ((tryMark stAlice 1 (500 + 301) 0.9).1).last_attendance_times =
      some (500 + 301) :=
  ⟨rfl, (tryMark_commit_iff_cooldown stAlice 1 0 0.9).2.2.2.2 500 rfl⟩

/-- Counterexample for claim C2 as stated: the claimed equivalence is
quantified over every threshold, but at threshold 0 with a store holding
one embedding orthogonal to the query the maximum similarity (0) does pass
the threshold and the store is non-empty, yet the matcher returns no
identity, because the best-match accumulator starts at 0.0 and is only
replaced by a strictly greater dot product. -/
theorem recognize_face_threshold_zero_cex :
    ¬ (((recognize_face [(1, [1])] [] [0] 0).1 ≠ none) ↔
        (([(1, [1])] : List (ℕ × List ℚ)) ≠ [] ∧
          ∃ e ∈ ([(1, [1])] : List (ℕ × List ℚ)), (0 : ℚ) ≤ dotQ [0] e.2)) := by
  intro hiff
  have hd : dotQ [0] [1] = 0 := by norm_num [dotQ]
  have hscan : scanFaces [0] [(1, [1])] ((none : Option ℕ), (0 : ℚ)) = (none, 0) := by
    refine scanFaces_eq_of_le [0] [(1, [1])] (none, 0) ?_
    intro e he
    rw [List.mem_singleton] at he
    subst he
    exact le_of_eq hd
  have h1 : (recognize_face [(1, [1])] [] [0] 0).1 = none := by
    rw [recognize_face_eq, hscan, if_pos (le_refl (0 : ℚ))]
  exact hiff.2 ⟨by simp, ⟨(1, [1]), List.mem_singleton.2 rfl, le_of_eq hd.symm⟩⟩ h1

/-- Claim C2, amended: for every positive threshold, the matcher returns
an identity if and only if the store is non-empty and some stored entry
has dot-product similarity at least the threshold; the returned score is
the running maximum of the dot products clamped below at the initial
accumulator value 0.0 (hence 0.0 on an empty store); and on an empty
store the result is exactly no identity, no name, score 0.0. -/
theorem recognize_face_recognized_iff (known : List (ℕ × List ℚ))
    (names : List (ℕ × String)) (emb : List ℚ) (t : ℚ) (ht : 0 < t) :
    ((recognize_face known names emb t).1 ≠ none ↔
      known ≠ [] ∧ ∃ e ∈ known, t ≤ dotQ emb e.2) ∧
    (recognize_face known names emb t).2.2 =
      (known.map (fun e => dotQ emb e.2)).foldl max 0 ∧
    (known = [] → recognize_face known names emb t = (none, none, 0)) := by
  refine ⟨⟨?_, ?_⟩, ?_, ?_⟩
  · intro hres
    rw [recognize_face_eq] at hres
    by_cases hb : t ≤ (scanFaces emb known ((none : Option ℕ), (0 : ℚ))).2
    · have hb' : t ≤ (known.map (fun e => dotQ emb e.2)).foldl max 0 := by
        have h2 := hb
        rw [scanFaces_snd] at h2
        exact h2
      rcases foldl_max_cases hb' with h0 | ⟨x, hx, hxt⟩
      · exact absurd (lt_of_lt_of_le ht h0) (lt_irrefl 0)
      · rcases List.mem_map.1 hx with ⟨e, he, rfl⟩
        exact ⟨List.ne_nil_of_mem he, ⟨e, he, hxt⟩⟩
    · rw [if_neg hb] at hres
      exact absurd rfl hres
  · rintro ⟨_, e, he, hte⟩
    rw [recognize_face_eq]
    have hle : dotQ emb e.2 ≤ (scanFaces emb known ((none : Option ℕ), (0 : ℚ))).2 := by
      rw [scanFaces_snd]
      exact mem_le_foldl_max (List.mem_map_of_mem _ he) _
    have hb : t ≤ (scanFaces emb known ((none : Option ℕ), (0 : ℚ))).2 :=
      le_trans hte hle
    rw [if_pos hb]
    intro hnone
    have heq := scanFaces_fst_none emb known (none, 0) hnone
    rw [heq] at hb
    exact absurd (lt_of_lt_of_le ht hb) (lt_irrefl 0)
  · rw [recognize_face_eq]
    by_cases hb : t ≤ (scanFaces emb known ((none : Option ℕ), (0 : ℚ))).2
    · rw [if_pos hb]
      show (scanFaces emb known (none, 0)).2 = _
      exact scanFaces_snd emb known (none, 0)
    · rw [if_neg hb]
      show (scanFaces emb known (none, 0)).2 = _
      exact scanFaces_snd emb known (none, 0)
  · intro hk
    subst hk
    rw [recognize_face_eq]
    have hn : ¬ t ≤ (scanFaces emb [] ((none : Option ℕ), (0 : ℚ))).2 := not_le.2 ht
    rw [if_neg hn]
    rfl

/-- Witness for the amended C2 at a concrete positive threshold. -/
theorem recognize_face_recognized_iff_witness :
    (0 : ℚ) < 1 ∧
    (((recognize_face [(1, [1])] [(1, "Alice")] [1] 1).1 ≠ none ↔
        ([(1, [1])] : List (ℕ × List ℚ)) ≠ [] ∧
          ∃ e ∈ ([(1, [1])] : List (ℕ × List ℚ)), (1 : ℚ) ≤ dotQ [1] e.2) ∧
      (recognize_face [(1, [1])] [(1, "Alice")] [1] 1).2.2 =
        (([(1, [1])] : List (ℕ × List ℚ)).map (fun e => dotQ [1] e.2)).foldl max 0 ∧
      (([(1, [1])] : List (ℕ × List ℚ)) = [] →
        recognize_face [(1, [1])] [(1, "Alice")] [1] 1 = (none, none, 0))) :=
  ⟨one_pos, recognize_face_recognized_iff [(1, [1])] [(1, "Alice")] [1] 1 one_pos⟩

/-- Counterexample for claim C3 as stated: deleting student 1 from a state
whose last-seen table maps 1 to time 500 leaves that last-seen entry in
place, contradicting the claim that deletion removes any cached last-seen
timestamp. -/
theorem delete_student_lastSeen_persists_cex :
    delete_student stAlice 1 = some ⟨[], [], [], [(1, 500)], []⟩ ∧
    alookup 1 ((⟨[], [], [], [(1, 500)], []⟩ : SysState).last_attendance_times) =
      some 500 :=
  ⟨rfl, rfl⟩

/-- Claim C3, amended: deleting a present identity removes its student
record, its stored embedding and its display name, but does not remove the
cached last-seen timestamp: `last_attendance_times` (and the attendance
log) are left exactly unchanged by `delete_student`. -/
theorem delete_student_frame (st : SysState) (sid : ℕ) (st' : SysState)
    (h : delete_student st sid = some st') :
    alookup sid st'.students_db = none ∧
    alookup sid st'.known_faces = none ∧
    alookup sid st'.face_names = none ∧
    st'.last_attendance_times = st.last_attendance_times ∧
    st'.attendance_db = st.attendance_db := by
  have he := delete_student_eq_some h
  subst he
  exact ⟨alookup_aerase_self _ _, alookup_aerase_self _ _,
         alookup_aerase_self _ _, rfl, rfl⟩

/-- Witness for the amended C3 on a concrete deletion. -/
theorem delete_student_frame_witness :
    delete_student stAlice 1 = some ⟨[], [], [], [(1, 500)], []⟩ ∧
    (alookup 1 ((⟨[], [], [], [(1, 500)], []⟩ : SysState).students_db) = none ∧
     alookup 1 ((⟨[], [], [], [(1, 500)], []⟩ : SysState).known_faces) = none ∧
     alookup 1 ((⟨[], [], [], [(1, 500)], []⟩ : SysState).face_names) = none ∧
     (⟨[], [], [], [(1, 500)], []⟩ : SysState).last_attendance_times =
       stAlice.last_attendance_times ∧
     (⟨[], [], [], [(1, 500)], []⟩ : SysState).attendance_db =
       stAlice.attendance_db) :=
  ⟨rfl, delete_student_frame stAlice 1 ⟨[], [], [], [(1, 500)], []⟩ rfl⟩

/-- Counterexample for claim C4 as stated: with three valid candidates
whose element-wise mean is the zero vector (zero norm), registration does
not fail and something is stored — `register_face` has no zero-norm check,
so the normalization division is performed on the zero-norm mean and the
result is written to the store with success reported. -/
theorem register_face_zero_norm_success_cex :
    (([⟨1, some [1]⟩, ⟨1, some [-1]⟩, ⟨1, some [0]⟩] : List ImageRes).filterMap candEmb =
        ([[1], [-1], [0]] : List (List ℝ))) ∧
    sumSq (meanVec ([[1], [-1], [0]] : List (List ℝ))) = 0 ∧
    (register_face ⟨[], []⟩ 1 "Alice"
        [⟨1, some [1]⟩, ⟨1, some [-1]⟩, ⟨1, some [0]⟩]).2 = true ∧
    alookup 1 (register_face ⟨[], []⟩ 1 "Alice"
        [⟨1, some [1]⟩, ⟨1, some [-1]⟩, ⟨1, some [0]⟩]).1.known_faces =
      some (aggregateEmb ([[1], [-1], [0]] : List (List ℝ))) := by
  refine ⟨rfl, ?_, rfl, rfl⟩
  show sumSq ((sumVecs ([[1], [-1], [0]] : List (List ℝ))).map
      (fun x => x / (([[1], [-1], [0]] : List (List ℝ)).length : ℝ))) = 0
  norm_num [sumSq, sumVecs]

/-- Claim C4, amended: the code contains no zero-norm (degenerate
embedding) check: whenever three or more valid candidates survive
filtering, registration succeeds and stores the normalized mean, even when
the mean vector has zero norm — in that case the normalization division is
still performed on the zero-norm vector (in float arithmetic it produces
non-finite values, which are written to the store). -/
theorem register_face_no_degenerate_check (db : FaceDB) (sid : ℕ) (name : String)
    (images : List ImageRes)
    (h3 : 3 ≤ (images.filterMap candEmb).length)
    (hz : sumSq (meanVec (images.filterMap candEmb)) = 0) :
    (register_face db sid name images).2 = true ∧
    alookup sid (register_face db sid name images).1.known_faces =
      some (aggregateEmb (images.filterMap candEmb)) := by
  rw [register_face_eq, if_pos h3]
  exact ⟨rfl, alookup_alistInsert_self _ _ _⟩

/-- Witness for the amended C4 on the concrete degenerate input. -/
theorem register_face_no_degenerate_check_witness :
    3 ≤ (([⟨1, some [1]⟩, ⟨1, some [-1]⟩, ⟨1, some [0]⟩] : List ImageRes).filterMap
        candEmb).length ∧
    sumSq (meanVec (([⟨1, some [1]⟩, ⟨1, some [-1]⟩, ⟨1, some [0]⟩] :
        List ImageRes).filterMap candEmb)) = 0 ∧
    ((register_face ⟨[], []⟩ 2 "Bob"
        [⟨1, some [1]⟩, ⟨1, some [-1]⟩, ⟨1, some [0]⟩]).2 = true ∧
      alookup 2 (register_face ⟨[], []⟩ 2 "Bob"
          [⟨1, some [1]⟩, ⟨1, some [-1]⟩, ⟨1, some [0]⟩]).1.known_faces =
        some (aggregateEmb (([⟨1, some [1]⟩, ⟨1, some [-1]⟩, ⟨1, some [0]⟩] :
            List ImageRes).filterMap candEmb))) := by
  have h3 : 3 ≤ (([⟨1, some [1]⟩, ⟨1, some [-1]⟩, ⟨1, some [0]⟩] :
      List ImageRes).filterMap candEmb).length := Nat.le_refl 3
  have hz : sumSq (meanVec (([⟨1, some [1]⟩, ⟨1, some [-1]⟩, ⟨1, some [0]⟩] :
      List ImageRes).filterMap candEmb)) = 0 := by
    show sumSq ((sumVecs ([[1], [-1], [0]] : List (List ℝ))).map
        (fun x => x / (([[1], [-1], [0]] : List (List ℝ)).length : ℝ))) = 0
    norm_num [sumSq, sumVecs]
  exact ⟨h3, hz, register_face_no_degenerate_check ⟨[], []⟩ 2 "Bob" _ h3 hz⟩

/-- Claim C5: with fewer than 3 valid candidate embeddings remaining after
the per-image filtering (exactly one detected face and successful
extraction), registration fails and the face database is completely
unchanged: no embedding and no name are written. -/
theorem register_face_insufficient_samples (db : FaceDB) (sid : ℕ) (name : String)
    (images : List ImageRes)
    (h : (images.filterMap candEmb).length < 3) :
    register_face db sid name images = (db, false) := by
  rw [register_face_eq, if_neg (not_le.2 h)]

/-- Witness for C5: a single valid candidate is rejected with the store
unchanged. -/
theorem register_face_insufficient_samples_witness :
    (([⟨1, some [1]⟩] : List ImageRes).filterMap candEmb).length < 3 ∧
    register_face ⟨[], []⟩ 1 "Alice" [⟨1, some [1]⟩] = (⟨[], []⟩, false) := by
  have h : (([⟨1, some [1]⟩] : List ImageRes).filterMap candEmb).length < 3 :=
    Nat.lt_of_sub_eq_succ rfl
  exact ⟨h, register_face_insufficient_samples ⟨[], []⟩ 1 "Alice" _ h⟩

/-- Counterexample for claim C6 as stated: removing the same identity a
second time is an error — after a successful `delete_student`, a second
`delete_student` of the same id returns `none` (the endpoint raises
HTTP 404 "Student not found"), contradicting "produces no error". -/
theorem delete_student_second_delete_errors_cex :
    delete_student stAlice 1 = some ⟨[], [], [], [(1, 500)], []⟩ ∧
    delete_student (⟨[], [], [], [(1, 500)], []⟩ : SysState) 1 = none :=
  ⟨rfl, rfl⟩

/-- Claim C6, amended: removal is not idempotent at the endpoint level — a
second `delete_student` of the same identity fails with a 404 error
(`none`) because the id is no longer in `students_db`; however, the second
half of the claim holds: after a successful removal, no subsequent match
over the resulting store ever returns that identity, for any query and any
threshold. -/
theorem delete_student_not_idempotent_no_match (st : SysState) (sid : ℕ)
    (st' : SysState) (h : delete_student st sid = some st') :
    delete_student st' sid = none ∧
    ∀ (emb : List ℚ) (t : ℚ),
      (recognize_face st'.known_faces st'.face_names emb t).1 ≠ some sid := by
  have he := delete_student_eq_some h
  subst he
  constructor
  · rw [delete_student]
    have hnone : alookup sid (aerase sid st.students_db) = none :=
      alookup_aerase_self _ _
    simp [hnone]
  · intro emb t h2
    rcases recognize_face_fst_mem h2 with ⟨e, he2, hei⟩
    exact absurd hei (ne_of_mem_aerase he2)

/-- Witness for the amended C6 on a concrete deletion. -/
theorem delete_student_not_idempotent_no_match_witness :
    delete_student stAlice 1 = some ⟨[], [], [], [(1, 500)], []⟩ ∧
    (delete_student (⟨[], [], [], [(1, 500)], []⟩ : SysState) 1 = none ∧
      ∀ (emb : List ℚ) (t : ℚ),
        (recognize_face ((⟨[], [], [], [(1, 500)], []⟩ : SysState).known_faces)
            ((⟨[], [], [], [(1, 500)], []⟩ : SysState).face_names) emb t).1 ≠
          some 1) :=
  ⟨rfl, delete_student_not_idempotent_no_match stAlice 1 _ rfl⟩

/-- Claim C7: batch recognition produces one result entry per detected
face, with result `i` corresponding to input face `i` (order preserved:
the whole results list is the input list mapped through the per-face
result function, and index-wise, result `i` is exactly the per-face
result of face `i`, for every face); a face whose embedding extraction
failed yields a zero-confidence unrecognized entry without aborting the
batch; and `recognized_count` equals the number of result entries with
`recognized = true` (matches whose attendance write was suppressed by the
dedup gate count the same as committed ones, since the recognized entry
and the counter increment do not depend on the gate's outcome). -/
theorem recognize_faces_multi_per_face (st : SysState)
    (faces : List (List ℤ × Option (List ℚ))) (now : ℚ) :
    (recognize_faces_multi st faces now).2.1 =
      faces.map (faceResult st.known_faces st.face_names) ∧
    ((recognize_faces_multi st faces now).2.1).length = faces.length ∧
    (∀ (i : ℕ) (h1 : i < faces.length)
        (h2 : i < ((recognize_faces_multi st faces now).2.1).length),
      ((recognize_faces_multi st faces now).2.1).get ⟨i, h2⟩ =
        faceResult st.known_faces st.face_names (faces.get ⟨i, h1⟩)) ∧
    (∀ (i : ℕ) (h1 : i < faces.length)
        (h2 : i < ((recognize_faces_multi st faces now).2.1).length),
      (faces.get ⟨i, h1⟩).2 = none →
        ((recognize_faces_multi st faces now).2.1).get ⟨i, h2⟩ =
          ⟨none, none, 0, false, none⟩) ∧
    (recognize_faces_multi st faces now).2.2 =
      List.countP (fun r => r.recognized) ((recognize_faces_multi st faces now).2.1) := by
  have hres := recognize_faces_multi_results faces st now
  have hcorr : ∀ (i : ℕ) (h1 : i < faces.length)
      (h2 : i < ((recognize_faces_multi st faces now).2.1).length),
      ((recognize_faces_multi st faces now).2.1).get ⟨i, h2⟩ =
        faceResult st.known_faces st.face_names (faces.get ⟨i, h1⟩) := by
    intro i h1 h2
    have h2' : i < (faces.map (faceResult st.known_faces st.face_names)).length := by
      rw [List.length_map]
      exact h1
    rw [get_congr hres i h2 h2', get_map_eq _ faces i h1 h2']
  refine ⟨hres, ?_, hcorr, ?_, recognize_faces_multi_count faces st now⟩
  · rw [hres]
    exact List.length_map _ _
  · intro i h1 h2 hnone
    rw [hcorr i h1 h2]
    rcases hface : faces.get ⟨i, h1⟩ with ⟨bbox, oemb⟩
    rw [hface] at hnone
    have hoemb : oemb = none := hnone
    subst hoemb
    exact faceResult_at_none _ _ _

/-- Witness for C7: a batch with a single face whose extraction failed
yields the mapped per-face result list, whose entry at index 0 is the
per-face result of face 0 — a zero-confidence unrecognized entry. -/
theorem recognize_faces_multi_per_face_witness :
    (recognize_faces_multi emptyState [(([] : List ℤ), (none : Option (List ℚ)))] 0).2.1 =
      [(([] : List ℤ), (none : Option (List ℚ)))].map
        (faceResult emptyState.known_faces emptyState.face_names) ∧
    ((recognize_faces_multi emptyState [(([] : List ℤ), none)] 0).2.1).get
        ⟨0, Nat.one_pos⟩ =
      faceResult emptyState.known_faces emptyState.face_names
        ([(([] : List ℤ), (none : Option (List ℚ)))].get ⟨0, Nat.one_pos⟩) ∧
    (([((([] : List ℤ)), (none : Option (List ℚ)))].get ⟨0, Nat.one_pos⟩).2 = none) ∧
    ((recognize_faces_multi emptyState [(([] : List ℤ), none)] 0).2.1).get
        ⟨0, Nat.one_pos⟩ = ⟨none, none, 0, false, none⟩ :=
  ⟨(recognize_faces_multi_per_face emptyState [(([] : List ℤ), none)] 0).1,
   (recognize_faces_multi_per_face emptyState [(([] : List ℤ), none)] 0).2.2.1 0
      Nat.one_pos Nat.one_pos,
   rfl,
   (recognize_faces_multi_per_face emptyState [(([] : List ℤ), none)] 0).2.2.2.1 0
      Nat.one_pos Nat.one_pos rfl⟩

/-- Claim C8: the registration aggregation (L2-normalized element-wise
mean) is invariant under uniform positive scaling of all candidate
embeddings: for candidates accepted by aggregation (at least 3) and any
positive constant, aggregating the scaled candidates yields the same
normalized result as aggregating the originals. -/
theorem aggregateEmb_scale_invariant (es : List (List ℝ)) (c : ℝ) (hc : 0 < c)
    (hlen : 3 ≤ es.length) :
    aggregateEmb (es.map (List.map (fun x => c * x))) = aggregateEmb es := by
  rw [aggregateEmb, aggregateEmb, meanVec_map_mul, normalizeVec_map_mul hc]

/-- Witness for C8 at scale factor 2 on three candidates. -/
theorem aggregateEmb_scale_invariant_witness :
    (0 : ℝ) < 2 ∧ 3 ≤ ([[1], [1], [1]] : List (List ℝ)).length ∧
    aggregateEmb (([[1], [1], [1]] : List (List ℝ)).map (List.map (fun x => 2 * x))) =
      aggregateEmb ([[1], [1], [1]] : List (List ℝ)) :=
  ⟨two_pos, Nat.le_refl 3,
   aggregateEmb_scale_invariant [[1], [1], [1]] 2 two_pos (Nat.le_refl 3)⟩

/-- Claim C9: the similarity score returned by the matcher is never
negative — the best-similarity accumulator starts at 0.0 and is only
replaced by a strictly greater dot product — so when every stored
embedding has non-positive similarity with the query, the matcher returns
no identity and score 0.0 even though the store is non-empty. -/
theorem recognize_face_score_nonneg (known : List (ℕ × List ℚ))
    (names : List (ℕ × String)) (emb : List ℚ) (t : ℚ) :
    0 ≤ (recognize_face known names emb t).2.2 ∧
    ((∀ e ∈ known, dotQ emb e.2 ≤ 0) → known ≠ [] →
      (recognize_face known names emb t).1 = none ∧
        (recognize_face known names emb t).2.2 = 0) := by
  constructor
  · rw [recognize_face_eq]
    by_cases hb : t ≤ (scanFaces emb known ((none : Option ℕ), (0 : ℚ))).2
    · rw [if_pos hb]
      show 0 ≤ (scanFaces emb known ((none : Option ℕ), (0 : ℚ))).2
      rw [scanFaces_snd]
      exact le_foldl_max 0 _
    · rw [if_neg hb]
      show 0 ≤ (scanFaces emb known ((none : Option ℕ), (0 : ℚ))).2
      rw [scanFaces_snd]
      exact le_foldl_max 0 _
  · intro hall _
    have hscan : scanFaces emb known ((none : Option ℕ), (0 : ℚ)) = (none, 0) :=
      scanFaces_eq_of_le emb known (none, 0) hall
    rw [recognize_face_eq, hscan]
    by_cases ht0 : t ≤ ((none : Option ℕ), (0 : ℚ)).2
    · rw [if_pos ht0]
      exact ⟨rfl, rfl⟩
    · rw [if_neg ht0]
      exact ⟨rfl, rfl⟩

/-- Witness for C9: a non-empty store whose only embedding has negative
similarity with the query still yields no identity and score 0.0. -/
theorem recognize_face_score_nonneg_witness :
    (∀ e ∈ ([(1, [-1])] : List (ℕ × List ℚ)), dotQ [1] e.2 ≤ 0) ∧
    (([(1, [-1])] : List (ℕ × List ℚ)) ≠ []) ∧
    ((recognize_face [(1, [-1])] [] [1] 0.6).1 = none ∧
      (recognize_face [(1, [-1])] [] [1] 0.6).2.2 = 0) := by
  have hall : ∀ e ∈ ([(1, [-1])] : List (ℕ × List ℚ)), dotQ [1] e.2 ≤ 0 := by
    intro e he
    rw [List.mem_singleton] at he
    subst he
    norm_num [dotQ]
  exact ⟨hall, by simp,
    (recognize_face_score_nonneg [(1, [-1])] [] [1] 0.6).2 hall (by simp)⟩

/-- Claim C10: `create_student` assigns the identifier
`len(students_db) + 1`; consequently, in any state in which that
identifier is already owned by an existing student (as happens whenever a
student other than the one with the highest identifier has been deleted),
the next create returns an identifier already in use and silently
overwrites that student's record: the new record is stored under the id
and the student count does not grow, so lifetime uniqueness of
identifiers is not preserved. -/
theorem create_student_id_reuse (st : SysState) (n r : String) (old : StudentRec)
    (h : alookup (st.students_db.length + 1) st.students_db = some old) :
    (create_student st n r).2 = st.students_db.length + 1 ∧
    alookup (st.students_db.length + 1) (create_student st n r).1.students_db =
      some ⟨st.students_db.length + 1, n, r⟩ ∧
    (create_student st n r).1.students_db.length = st.students_db.length := by
  refine ⟨rfl, ?_, ?_⟩
  · exact alookup_alistInsert_self (st.students_db.length + 1)
      ⟨st.students_db.length + 1, n, r⟩ st.students_db
  · exact length_alistInsert_of_lookup ⟨st.students_db.length + 1, n, r⟩ h

/-- Witness for C10: create Alice (id 1), create Bob (id 2), delete
student 1; the next create is assigned id `1 + 1 = 2`, which Bob already
owns, and Bob's record is silently overwritten while the student count
stays 1. -/
theorem create_student_id_reuse_witness :
    create_student emptyState "Alice" "r1" =
      (⟨[(1, ⟨1, "Alice", "r1"⟩)], [], [], [], []⟩, 1) ∧
    create_student (⟨[(1, ⟨1, "Alice", "r1"⟩)], [], [], [], []⟩ : SysState) "Bob" "r2" =
      (⟨[(1, ⟨1, "Alice", "r1"⟩), (2, ⟨2, "Bob", "r2"⟩)], [], [], [], []⟩, 2) ∧
    delete_student
        (⟨[(1, ⟨1, "Alice", "r1"⟩), (2, ⟨2, "Bob", "r2"⟩)], [], [], [], []⟩ : SysState)
        1 = some stAfterDelete ∧
    alookup (stAfterDelete.students_db.length + 1) stAfterDelete.students_db =
      some ⟨2, "Bob", "r2"⟩ ∧
    ((create_student stAfterDelete "Carol" "r3").2 =
        stAfterDelete.students_db.length + 1 ∧
      alookup (stAfterDelete.students_db.length + 1)
          (create_student stAfterDelete "Carol" "r3").1.students_db =
        some ⟨stAfterDelete.students_db.length + 1, "Carol", "r3"⟩ ∧
      (create_student stAfterDelete "Carol" "r3").1.students_db.length =
        stAfterDelete.students_db.length) :=
  ⟨rfl, rfl, rfl, rfl,
   create_student_id_reuse stAfterDelete "Carol" "r3" ⟨2, "Bob", "r2"⟩ rfl⟩
